import Mathlib

/-!
Shallow embedding of the auto-registering C++ factory (factory.h).

The factory stores creation functions in a
std::map<const char*, FACTORY_T_PTR(*)(TArgs...), cmp_cstr>, where cmp_cstr
orders keys by strcmp on the pointed-to null-terminated byte strings.  We model:

* a `const char*` key as a `CStr`: an address (pointer identity) together with
  the pointed-to byte string (the bytes before the null terminator, hence
  nonzero and below 256);
* `strcmp` as byte-wise three-way comparison, the terminator acting as byte 0;
* the std::map as a list of (key, value) entries kept in strictly increasing
  `cmp_cstr` order, with `find` returning the entry whose key compares equal
  (strcmp = 0) to the probe, exactly as the comparator-based container does;
* each static member function of Factory<T, TArgs...> as a pure function taking
  the map state explicitly (the hidden static map of GetMap());
* a creation function pointer as a Lean function from the argument tuple to the
  result, `Create`'s nullptr result as `none`;
* the ARDUINO build of GetNameByIndex, whose out-of-range behaviour is a fatal
  assert, as a function into an `AssertResult`;
* the static field RegisteredInFactory<TParent, TClass, TArgs...>::_FACTORY_INIT,
  whose initializer is `Factory<TParent, TArgs...>::Register(TClass::GetFactoryKey(),
  TClass::CreateInstance)`, as one `Register` call per trigger, and the static
  initialization phase as folding those calls over the list of instantiated
  triggers before any use of the registry.
-/

namespace AutoFactory

/-- A `const char*` key: the pointer value (`addr`) and the bytes of the
pointed-to string before the null terminator.  C string content bytes are
nonzero and fit in an unsigned char. -/
structure CStr where
  addr : Nat
  bytes : List Nat
  wf : ∀ b ∈ bytes, 0 < b ∧ b < 256

/-- Byte-wise three-way string comparison: `strcmp` on null-terminated strings,
with the terminator behaving as byte value 0.  Only the sign is used by the
factory. -/
def strcmp : List Nat → List Nat → Int
  | [], [] => 0
  | [], b :: _ => -(b : Int)
  | a :: _, [] => (a : Int)
  | a :: as, b :: bs => if a = b then strcmp as bs else (a : Int) - (b : Int)

/-- The map comparator from factory.h: `strcmp(a, b) < 0`. -/
def cmp_cstr (a b : CStr) : Bool :=
  decide (strcmp a.bytes b.bytes < 0)

/-- The state of one Factory<T, TArgs...> instantiation: the entries of the
static std::map, in the map's iteration order (strictly increasing under
`cmp_cstr`; the invariant is stated separately as `SortedEntries` and shown to
hold for every state the factory code can build). -/
structure FactoryMap (V : Type) where
  entries : List (CStr × V)

/-- std::map::find under the comparator: the entry whose key compares equal
(strcmp = 0) to `name`, if any. -/
def mapFind {V : Type} (m : FactoryMap V) (name : CStr) : Option V :=
  (m.entries.find? (fun e => decide (strcmp e.1.bytes name.bytes = 0))).map Prod.snd

/-- std::map insertion of a key not yet present: place the new entry before the
first entry whose key is greater, keeping the entries ordered. -/
def mapInsert {V : Type} (name : CStr) (v : V) : List (CStr × V) → List (CStr × V)
  | [] => [(name, v)]
  | e :: es => if cmp_cstr name e.1 then (name, v) :: e :: es else e :: mapInsert name v es

/-- Factory::Register: if `name` is not found, insert `(name, funcCreate)` and
return true; otherwise leave the map as it is and return false.  The returned
pair is (return value, map state after the call). -/
def Register {V : Type} (m : FactoryMap V) (name : CStr) (funcCreate : V) :
    Bool × FactoryMap V :=
  match mapFind m name with
  | none => (true, ⟨mapInsert name funcCreate m.entries⟩)
  | some _ => (false, m)

/-- Factory::Create: look up `name`; if found, call the stored creation
function on `args` and return its result; otherwise return nullptr (`none`).
This is the code of both build modes: the source contains no assert here. -/
def Create {A R : Type} (m : FactoryMap (A → R)) (name : CStr) (args : A) : Option R :=
  match mapFind m name with
  | some funcCreate => some (funcCreate args)
  | none => none

/-- Factory::IsRegistered: true exactly when `find` succeeds. -/
def IsRegistered {V : Type} (m : FactoryMap V) (name : CStr) : Bool :=
  (mapFind m name).isSome

/-- Factory::GetCount: the size of the map. -/
def GetCount {V : Type} (m : FactoryMap V) : Nat :=
  m.entries.length

/-- Factory::GetNameByIndex, non-Arduino build: nullptr (`none`) when the index
is out of range, otherwise the key of the index-th entry in iteration order. -/
def GetNameByIndex {V : Type} (m : FactoryMap V) (index : Nat) : Option CStr :=
  if index ≥ GetCount m then
    none
  else
    (m.entries[index]?).map Prod.fst

/-- Result of a call that may hit a failed `assert`: either the value, or the
fatal assertion. -/
inductive AssertResult (α : Type) where
  | ok (val : α)
  | assertFailed
deriving Repr

/-- Factory::GetNameByIndex, ARDUINO build: `assert(index < GetMap()->size())`
fails fatally when the index is out of range; otherwise the key of the index-th
entry. -/
def GetNameByIndexArduino {V : Type} (m : FactoryMap V) (index : Nat) :
    AssertResult CStr :=
  if h : index < GetCount m then
    AssertResult.ok (m.entries.get ⟨index, h⟩).1
  else
    AssertResult.assertFailed

/-- A RegisteredInFactory<TParent, TClass, TArgs...> instantiation, i.e. one
(base type, derived type, argument list) triple: the derived type's two static
operations. -/
structure Trigger (A R : Type) where
  GetFactoryKey : CStr
  CreateInstance : A → R

/-- The initializer of the trigger's static flag _FACTORY_INIT:
`Factory<TParent, TArgs...>::Register(TClass::GetFactoryKey(), TClass::CreateInstance)`. -/
def factoryInitFlag {A R : Type} (m : FactoryMap (A → R)) (t : Trigger A R) :
    Bool × FactoryMap (A → R) :=
  Register m t.GetFactoryKey t.CreateInstance

/-- The static initialization phase: every instantiated trigger's flag is
initialized exactly once, each initialization performing its one `Register`
call, before any deliberate use of the registry. -/
def staticInitPhase {A R : Type} (m : FactoryMap (A → R)) (ts : List (Trigger A R)) :
    FactoryMap (A → R) :=
  ts.foldl (fun acc t => (factoryInitFlag acc t).2) m

/-- The empty registry: the state of the lazily-initialized static map before
any registration. -/
def emptyFactory {V : Type} : FactoryMap V := ⟨[]⟩

/-- A registry state reached by a sequence of `Register` calls starting from
the empty map. -/
def applyRegistrations {V : Type} (rs : List (CStr × V)) : FactoryMap V :=
  rs.foldl (fun m r => (Register m r.1 r.2).2) emptyFactory

/-- The std::map ordering invariant: entries strictly increase under the
comparator. -/
def SortedEntries {V : Type} (l : List (CStr × V)) : Prop :=
  l.Chain' (fun a b => strcmp a.1.bytes b.1.bytes < 0)

/-! Basic facts about `strcmp`. -/

theorem strcmp_self : ∀ a : List Nat, strcmp a a = 0
  | [] => rfl
  | a :: as => by simp [strcmp, strcmp_self as]

theorem strcmp_neg : ∀ a b : List Nat, strcmp a b = -strcmp b a
  | [], [] => by simp [strcmp]
  | [], _ :: _ => by simp [strcmp]
  | _ :: _, [] => by simp [strcmp]
  | a :: as, b :: bs => by
    by_cases h : a = b
    · subst h
      simp [strcmp, strcmp_neg as bs]
    · have h' : ¬ b = a := fun hh => h hh.symm
      simp only [strcmp, if_neg h, if_neg h']
      omega

theorem strcmp_eq_zero_iff : ∀ a b : List Nat,
    (∀ x ∈ a, 0 < x) → (∀ x ∈ b, 0 < x) → (strcmp a b = 0 ↔ a = b)
  | [], [], _, _ => by simp [strcmp]
  | [], b :: bs, _, hb => by
    have : 0 < b := hb b (List.mem_cons_self b bs)
    simp only [strcmp]
    constructor
    · intro h; omega
    · intro h; exact absurd h (by simp)
  | a :: as, [], ha, _ => by
    have : 0 < a := ha a (List.mem_cons_self a as)
    simp only [strcmp]
    constructor
    · intro h; omega
    · intro h; exact absurd h (by simp)
  | a :: as, b :: bs, ha, hb => by
    by_cases h : a = b
    · subst h
      have ih := strcmp_eq_zero_iff as bs
        (fun x hx => ha x (List.mem_cons_of_mem a hx))
        (fun x hx => hb x (List.mem_cons_of_mem a hx))
      simp [strcmp, ih]
    · simp only [strcmp, if_neg h]
      constructor
      · intro hz; exact absurd (by omega : a = b) h
      · intro hz; exact absurd (List.cons.injEq .. ▸ congrArg id hz) (by simp [h])

theorem strcmp_lt_trans : ∀ a b c : List Nat,
    strcmp a b < 0 → strcmp b c < 0 → strcmp a c < 0
  | [], [], _, h1, _ => by simp [strcmp] at h1
  | _ :: _, [], _, h1, _ => by simp only [strcmp] at h1; omega
  | [], _ :: _, [], _, h2 => by simp only [strcmp] at h2; omega
  | _ :: _, _ :: _, [], _, h2 => by simp only [strcmp] at h2; omega
  | [], b :: bs, c :: cs, h1, h2 => by
    simp only [strcmp] at h1 ⊢
    by_cases hbc : b = c
    · subst hbc; omega
    · simp only [strcmp, if_neg hbc] at h2; omega
  | a :: as, b :: bs, c :: cs, h1, h2 => by
    by_cases hab : a = b
    · subst hab
      by_cases hbc : a = c
      · subst hbc
        simp only [strcmp, if_pos rfl] at h1 h2 ⊢
        exact strcmp_lt_trans as bs cs h1 h2
      · simp only [strcmp, if_pos rfl, if_neg hbc] at h1 h2 ⊢
        omega
    · by_cases hbc : b = c
      · subst hbc
        simp only [strcmp, if_neg hab] at h1 ⊢
        omega
      · simp only [strcmp, if_neg hab, if_neg hbc] at h1 h2
        by_cases hac : a = c
        · subst hac; omega
        · simp only [strcmp, if_neg hac]; omega

/-- For actual C strings (whose content bytes are nonzero), comparing equal
under strcmp is the same as having equal contents. -/
theorem strcmp_bytes_eq_zero_iff (a b : CStr) :
    strcmp a.bytes b.bytes = 0 ↔ a.bytes = b.bytes :=
  strcmp_eq_zero_iff a.bytes b.bytes
    (fun x hx => (a.wf x hx).1) (fun x hx => (b.wf x hx).1)

theorem strcmp_lt_of_not_lt_of_ne {a b : List Nat}
    (h1 : ¬ strcmp a b < 0) (h2 : strcmp a b ≠ 0) : strcmp b a < 0 := by
  have := strcmp_neg a b
  omega

/-! Facts about the map model. -/

theorem mapInsert_length {V : Type} (k : CStr) (v : V) :
    ∀ l : List (CStr × V), (mapInsert k v l).length = l.length + 1
  | [] => rfl
  | e :: es => by
    cases h : cmp_cstr k e.1 <;>
      simp [mapInsert, h, mapInsert_length k v es]

theorem find?_mapInsert_of_ne {V : Type} (p : CStr × V → Bool) (k : CStr) (v : V)
    (hp : p (k, v) = false) :
    ∀ l : List (CStr × V), (mapInsert k v l).find? p = l.find? p
  | [] => by simp [mapInsert, List.find?_cons_of_neg, hp]
  | e :: es => by
    cases h : cmp_cstr k e.1 with
    | true =>
      simp only [mapInsert, h, if_true]
      rw [List.find?_cons_of_neg _ (by simp [hp])]
    | false =>
      simp only [mapInsert, h, Bool.false_eq_true, if_false]
      cases hpe : p e with
      | true => rw [List.find?_cons_of_pos _ hpe, List.find?_cons_of_pos _ hpe]
      | false =>
        rw [List.find?_cons_of_neg _ (by simp [hpe]),
          List.find?_cons_of_neg _ (by simp [hpe])]
        exact find?_mapInsert_of_ne p k v hp es

theorem find?_mapInsert_self {V : Type} (p : CStr × V → Bool) (k : CStr) (v : V)
    (hp : p (k, v) = true) :
    ∀ l : List (CStr × V), (∀ e ∈ l, p e = false) →
      (mapInsert k v l).find? p = some (k, v)
  | [], _ => by simp [mapInsert, List.find?_cons_of_pos, hp]
  | e :: es, hall => by
    have hpe : p e = false := hall e (List.mem_cons_self e es)
    cases h : cmp_cstr k e.1 with
    | true =>
      simp only [mapInsert, h, if_true]
      rw [List.find?_cons_of_pos _ hp]
    | false =>
      simp only [mapInsert, h, Bool.false_eq_true, if_false]
      rw [List.find?_cons_of_neg _ (by simp [hpe])]
      exact find?_mapInsert_self p k v hp es
        (fun x hx => hall x (List.mem_cons_of_mem e hx))

theorem isRegistered_false_iff {V : Type} (m : FactoryMap V) (k : CStr) :
    IsRegistered m k = false ↔ mapFind m k = none := by
  unfold IsRegistered
  cases mapFind m k <;> simp

theorem mapFind_none_forall {V : Type} {m : FactoryMap V} {k : CStr}
    (h : mapFind m k = none) :
    ∀ e ∈ m.entries, strcmp e.1.bytes k.bytes ≠ 0 := by
  intro e he
  unfold mapFind at h
  rw [Option.map_eq_none'] at h
  have := List.find?_eq_none.mp h e he
  simpa using this

theorem register_fresh_eq {V : Type} (m : FactoryMap V) (k : CStr) (f : V)
    (h : mapFind m k = none) :
    Register m k f = (true, ⟨mapInsert k f m.entries⟩) := by
  simp [Register, h]

theorem register_dup_eq {V : Type} (m : FactoryMap V) (k : CStr) (f g : V)
    (h : mapFind m k = some g) :
    Register m k f = (false, m) := by
  simp [Register, h]

theorem mapFind_register_self {V : Type} (m : FactoryMap V) (k : CStr) (f : V)
    (h : mapFind m k = none) :
    mapFind (Register m k f).2 k = some f := by
  rw [register_fresh_eq m k f h]
  unfold mapFind
  rw [find?_mapInsert_self _ k f (by simp [strcmp_self]) m.entries
    (fun e he => by simpa using mapFind_none_forall h e he)]
  rfl

theorem register_frame {V : Type} (m : FactoryMap V) (k : CStr) (f : V) (k' : CStr)
    (h : strcmp k.bytes k'.bytes ≠ 0) :
    mapFind (Register m k f).2 k' = mapFind m k' := by
  cases hf : mapFind m k with
  | some g => rw [register_dup_eq m k f g hf]
  | none =>
    rw [register_fresh_eq m k f hf]
    unfold mapFind
    rw [find?_mapInsert_of_ne _ k f (by simpa using h)]

theorem mapFind_congr_bytes {V : Type} (m : FactoryMap V) {k k' : CStr}
    (h : k'.bytes = k.bytes) : mapFind m k' = mapFind m k := by
  unfold mapFind
  rw [h]

theorem register_count_fresh {V : Type} (m : FactoryMap V) (k : CStr) (f : V)
    (h : mapFind m k = none) :
    GetCount (Register m k f).2 = GetCount m + 1 := by
  rw [register_fresh_eq m k f h]
  exact mapInsert_length k f m.entries

/-! The std::map ordering invariant is preserved by the factory's operations. -/

theorem mapInsert_head? {V : Type} (k : CStr) (v : V) :
    ∀ (l : List (CStr × V)) (x : CStr × V),
      (mapInsert k v l).head? = some x → x = (k, v) ∨ l.head? = some x
  | [], x => by
    intro h
    simp only [mapInsert, List.head?] at h
    exact Or.inl (by injection h with h; exact h.symm)
  | e :: es, x => by
    intro h
    cases hc : cmp_cstr k e.1 with
    | true =>
      simp only [mapInsert, hc, if_true, List.head?_cons] at h
      exact Or.inl (by injection h with h; exact h.symm)
    | false =>
      simp only [mapInsert, hc, Bool.false_eq_true, if_false, List.head?_cons] at h
      exact Or.inr (by simp [List.head?_cons, ← h])

theorem mapInsert_chain' {V : Type} (k : CStr) (v : V) :
    ∀ l : List (CStr × V), SortedEntries l →
      (∀ e ∈ l, strcmp e.1.bytes k.bytes ≠ 0) →
      SortedEntries (mapInsert k v l)
  | [], _, _ => by simp [mapInsert, SortedEntries]
  | e :: es, hs, hne => by
    have hse : SortedEntries es := (List.chain'_cons'.mp hs).2
    have hne' : ∀ x ∈ es, strcmp x.1.bytes k.bytes ≠ 0 :=
      fun x hx => hne x (List.mem_cons_of_mem e hx)
    cases hc : cmp_cstr k e.1 with
    | true =>
      simp only [mapInsert, hc, if_true]
      unfold SortedEntries
      rw [List.chain'_cons]
      exact ⟨by simpa [cmp_cstr] using hc, hs⟩
    | false =>
      simp only [mapInsert, hc, Bool.false_eq_true, if_false]
      unfold SortedEntries
      rw [List.chain'_cons']
      refine ⟨?_, mapInsert_chain' k v es hse hne'⟩
      intro x hx
      rcases mapInsert_head? k v es x (by simpa using hx) with hkv | hhd
      · subst hkv
        have hnotlt : ¬ strcmp k.bytes e.1.bytes < 0 := by
          simpa [cmp_cstr] using hc
        have hne0 : strcmp k.bytes e.1.bytes ≠ 0 := by
          have := hne e (List.mem_cons_self e es)
          have hsymm := strcmp_neg e.1.bytes k.bytes
          omega
        exact strcmp_lt_of_not_lt_of_ne hnotlt hne0
      · exact (List.chain'_cons'.mp hs).1 x hhd

theorem register_sorted {V : Type} (m : FactoryMap V) (k : CStr) (f : V)
    (h : SortedEntries m.entries) :
    SortedEntries (Register m k f).2.entries := by
  cases hf : mapFind m k with
  | some g => rw [register_dup_eq m k f g hf]; exact h
  | none =>
    rw [register_fresh_eq m k f hf]
    exact mapInsert_chain' k f m.entries h (mapFind_none_forall hf)

theorem foldl_register_sorted {V : Type} :
    ∀ (rs : List (CStr × V)) (m : FactoryMap V), SortedEntries m.entries →
      SortedEntries ((rs.foldl (fun m r => (Register m r.1 r.2).2) m).entries)
  | [], _, h => h
  | r :: rs, m, h =>
    foldl_register_sorted rs _ (register_sorted m r.1 r.2 h)

theorem applyRegistrations_sorted {V : Type} (rs : List (CStr × V)) :
    SortedEntries (applyRegistrations rs).entries :=
  foldl_register_sorted rs emptyFactory (by simp [emptyFactory, SortedEntries])

theorem sorted_pairwise {V : Type} (l : List (CStr × V)) (h : SortedEntries l) :
    l.Pairwise (fun a b => strcmp a.1.bytes b.1.bytes < 0) := by
  haveI : IsTrans (CStr × V) (fun a b => strcmp a.1.bytes b.1.bytes < 0) :=
    ⟨fun _ _ _ hab hbc => strcmp_lt_trans _ _ _ hab hbc⟩
  exact List.chain'_iff_pairwise.mp h

/-! Facts about lookup membership and index access. -/

theorem isRegistered_iff_mem {V : Type} (m : FactoryMap V) (k : CStr) :
    IsRegistered m k = true ↔ ∃ e ∈ m.entries, e.1.bytes = k.bytes := by
  unfold IsRegistered mapFind
  rw [Option.isSome_map']
  rw [List.find?_isSome]
  constructor
  · rintro ⟨e, he, hp⟩
    exact ⟨e, he, (strcmp_bytes_eq_zero_iff e.1 k).mp (by simpa using hp)⟩
  · rintro ⟨e, he, hp⟩
    exact ⟨e, he, by simp [(strcmp_bytes_eq_zero_iff e.1 k).mpr hp]⟩

theorem isRegistered_of_mem_entries {V : Type} (m : FactoryMap V) (i : Nat)
    (h : i < m.entries.length) :
    IsRegistered m (m.entries.get ⟨i, h⟩).1 = true :=
  (isRegistered_iff_mem m _).mpr
    ⟨m.entries.get ⟨i, h⟩, List.get_mem m.entries i h, rfl⟩

theorem register_isRegistered_frame {V : Type} (m : FactoryMap V) (k : CStr)
    (f : V) (k' : CStr) (h : k'.bytes ≠ k.bytes) :
    IsRegistered (Register m k f).2 k' = IsRegistered m k' := by
  unfold IsRegistered
  rw [register_frame m k f k' (fun h0 =>
    h ((strcmp_bytes_eq_zero_iff k k').mp h0).symm)]

/-! Facts about the static initialization phase. -/

theorem staticInitPhase_isRegistered_frame {A R : Type} (k : CStr) :
    ∀ (ts : List (Trigger A R)) (m : FactoryMap (A → R)),
      (∀ t ∈ ts, k.bytes ≠ t.GetFactoryKey.bytes) →
      IsRegistered (staticInitPhase m ts) k = IsRegistered m k
  | [], _, _ => rfl
  | t :: ts, m, hne => by
    have hstep :
        staticInitPhase m (t :: ts) =
          staticInitPhase (Register m t.GetFactoryKey t.CreateInstance).2 ts := rfl
    rw [hstep,
      staticInitPhase_isRegistered_frame k ts _
        (fun x hx => hne x (List.mem_cons_of_mem t hx)),
      register_isRegistered_frame m t.GetFactoryKey t.CreateInstance k
        (hne t (List.mem_cons_self t ts))]

theorem staticInitPhase_count {A R : Type} :
    ∀ (ts : List (Trigger A R)) (m : FactoryMap (A → R)),
      (∀ t ∈ ts, IsRegistered m t.GetFactoryKey = false) →
      ts.Pairwise (fun t t' => t.GetFactoryKey.bytes ≠ t'.GetFactoryKey.bytes) →
      GetCount (staticInitPhase m ts) = GetCount m + ts.length
  | [], _, _, _ => rfl
  | t :: ts, m, hfresh, hdist => by
    have hf : mapFind m t.GetFactoryKey = none :=
      (isRegistered_false_iff m _).mp (hfresh t (List.mem_cons_self t ts))
    have hd := List.pairwise_cons.mp hdist
    have hfresh' : ∀ x ∈ ts,
        IsRegistered (Register m t.GetFactoryKey t.CreateInstance).2
          x.GetFactoryKey = false := by
      intro x hx
      rw [register_isRegistered_frame m t.GetFactoryKey t.CreateInstance
        x.GetFactoryKey (Ne.symm (hd.1 x hx))]
      exact hfresh x (List.mem_cons_of_mem t hx)
    have hstep :
        staticInitPhase m (t :: ts) =
          staticInitPhase (Register m t.GetFactoryKey t.CreateInstance).2 ts := rfl
    rw [hstep, staticInitPhase_count ts _ hfresh' hd.2,
      register_count_fresh m t.GetFactoryKey t.CreateInstance hf]
    simp [Nat.add_assoc, Nat.add_comm 1 ts.length]

theorem staticInitPhase_registers {A R : Type} :
    ∀ (ts : List (Trigger A R)) (m : FactoryMap (A → R)),
      (∀ t ∈ ts, IsRegistered m t.GetFactoryKey = false) →
      ts.Pairwise (fun t t' => t.GetFactoryKey.bytes ≠ t'.GetFactoryKey.bytes) →
      ∀ t ∈ ts, IsRegistered (staticInitPhase m ts) t.GetFactoryKey = true
  | [], _, _, _ => by intro t ht; cases ht
  | t :: ts, m, hfresh, hdist => by
    have hf : mapFind m t.GetFactoryKey = none :=
      (isRegistered_false_iff m _).mp (hfresh t (List.mem_cons_self t ts))
    have hd := List.pairwise_cons.mp hdist
    have hfresh' : ∀ x ∈ ts,
        IsRegistered (Register m t.GetFactoryKey t.CreateInstance).2
          x.GetFactoryKey = false := by
      intro x hx
      rw [register_isRegistered_frame m t.GetFactoryKey t.CreateInstance
        x.GetFactoryKey (Ne.symm (hd.1 x hx))]
      exact hfresh x (List.mem_cons_of_mem t hx)
    have hstep :
        staticInitPhase m (t :: ts) =
          staticInitPhase (Register m t.GetFactoryKey t.CreateInstance).2 ts := rfl
    intro x hx
    rcases List.mem_cons.mp hx with rfl | hx'
    · rw [hstep,
        staticInitPhase_isRegistered_frame x.GetFactoryKey ts _
          (fun y hy => Ne.symm (Ne.symm (hd.1 y hy)))]
      unfold IsRegistered
      rw [mapFind_register_self m x.GetFactoryKey x.CreateInstance hf]
      rfl
    · rw [hstep]
      exact staticInitPhase_registers ts _ hfresh' hd.2 x hx'

/-! Concrete example data, mirroring the Cat/Dog/Fish scenario of the README. -/

/-- The key "Cat" stored at address 100. -/
def keyCat : CStr := ⟨100, [67, 97, 116], by decide⟩

/-- The key "Dog" stored at address 200. -/
def keyDog : CStr := ⟨200, [68, 111, 103], by decide⟩

/-- The key "Fish" stored at address 300. -/
def keyFish : CStr := ⟨300, [70, 105, 115, 104], by decide⟩

/-- A second pointer, at a different address, to an equal string "Cat". -/
def keyCatAlias : CStr := ⟨400, [67, 97, 116], by decide⟩

/-- A concrete creation function for Cat (modelled over Nat results). -/
def fCat : Nat → Nat := fun age => age + 1

/-- A concrete creation function for Dog. -/
def fDog : Nat → Nat := fun age => age + 2

/-- The registry after registering only "Cat". -/
def mCat : FactoryMap (Nat → Nat) := (Register emptyFactory keyCat fCat).2

/-- The Cat trigger: GetFactoryKey and CreateInstance of the Cat class. -/
def trigCat : Trigger Nat Nat := ⟨keyCat, fCat⟩

/-- The Dog trigger. -/
def trigDog : Trigger Nat Nat := ⟨keyDog, fDog⟩

/-! The claims. -/

/-- C1: for every key not currently present in the registry, Register inserts
the entry (it becomes the stored creation function for that key), returns
true, and GetCount afterwards equals GetCount before plus exactly one. -/
theorem C1_register_fresh_succeeds {V : Type} (m : FactoryMap V) (k : CStr)
    (f : V) (h : IsRegistered m k = false) :
    (Register m k f).1 = true ∧
    mapFind (Register m k f).2 k = some f ∧
    GetCount (Register m k f).2 = GetCount m + 1 := by
  have hf := (isRegistered_false_iff m k).mp h
  exact ⟨by rw [register_fresh_eq m k f hf], mapFind_register_self m k f hf,
    register_count_fresh m k f hf⟩

/-- Witness for C1: registering "Cat" in the empty registry. -/
theorem C1_register_fresh_succeeds_witness :
    IsRegistered (@emptyFactory (Nat → Nat)) keyCat = false ∧
    ((Register (@emptyFactory (Nat → Nat)) keyCat fCat).1 = true ∧
      mapFind (Register (@emptyFactory (Nat → Nat)) keyCat fCat).2 keyCat =
        some fCat ∧
      GetCount (Register (@emptyFactory (Nat → Nat)) keyCat fCat).2 =
        GetCount (@emptyFactory (Nat → Nat)) + 1) :=
  ⟨rfl, C1_register_fresh_succeeds emptyFactory keyCat fCat rfl⟩

/-- C2: registering a key already present returns false, leaves GetCount and
the whole registry state unchanged, and the creation function registered first
remains the one reachable via Create. -/
theorem C2_register_duplicate_rejected {A R : Type} (m : FactoryMap (A → R))
    (k : CStr) (f g : A → R) (a : A) (h : (Register m k f).1 = true) :
    (Register (Register m k f).2 k g).1 = false ∧
    GetCount (Register (Register m k f).2 k g).2 = GetCount (Register m k f).2 ∧
    (Register (Register m k f).2 k g).2 = (Register m k f).2 ∧
    Create (Register (Register m k f).2 k g).2 k a = some (f a) := by
  have hf : mapFind m k = none := by
    cases hm : mapFind m k with
    | none => rfl
    | some v =>
      rw [register_dup_eq m k f v hm] at h
      exact absurd h (by simp)
  have hself := mapFind_register_self m k f hf
  have hdup := register_dup_eq (Register m k f).2 k g f hself
  refine ⟨by rw [hdup], by rw [hdup], by rw [hdup], ?_⟩
  rw [hdup]
  simp [Create, hself]

/-- Witness for C2: "Cat" registered with fCat, then registered again with
fDog; the duplicate is rejected and fCat stays reachable. -/
theorem C2_register_duplicate_rejected_witness :
    (Register (@emptyFactory (Nat → Nat)) keyCat fCat).1 = true ∧
    ((Register (Register (@emptyFactory (Nat → Nat)) keyCat fCat).2 keyCat fDog).1
        = false ∧
      GetCount (Register (Register (@emptyFactory (Nat → Nat)) keyCat fCat).2
          keyCat fDog).2 =
        GetCount (Register (@emptyFactory (Nat → Nat)) keyCat fCat).2 ∧
      (Register (Register (@emptyFactory (Nat → Nat)) keyCat fCat).2
          keyCat fDog).2 =
        (Register (@emptyFactory (Nat → Nat)) keyCat fCat).2 ∧
      Create (Register (Register (@emptyFactory (Nat → Nat)) keyCat fCat).2
          keyCat fDog).2 keyCat 5 = some (fCat 5)) :=
  ⟨rfl, C2_register_duplicate_rejected emptyFactory keyCat fCat fDog 5 rfl⟩

/-- C3: for a key whose stored creation function is f, Create invokes f on the
arguments and returns its result unmodified; for a key not registered, Create
returns the null result in the default (non-embedded) build. -/
theorem C3_create_invokes_stored {A R : Type} (m : FactoryMap (A → R))
    (k : CStr) (a : A) :
    (∀ f, mapFind m k = some f → Create m k a = some (f a)) ∧
    (IsRegistered m k = false → Create m k a = none) := by
  constructor
  · intro f hf
    simp [Create, hf]
  · intro h
    simp [Create, (isRegistered_false_iff m k).mp h]

/-- Witness for C3: in the registry holding "Cat" with fCat, Create "Cat" 5
returns fCat 5; Create "Fish" 5 returns none. -/
theorem C3_create_invokes_stored_witness :
    Create mCat keyCat 5 = some (fCat 5) ∧ Create mCat keyFish 5 = none :=
  ⟨(C3_create_invokes_stored mCat keyCat 5).1 fCat rfl,
   (C3_create_invokes_stored mCat keyFish 5).2 rfl⟩

/-- C4: IsRegistered k is true exactly when an entry whose key string equals
k's string is present in the registry.  In this embedding IsRegistered is a
pure function of the registry state, so the call cannot change that state. -/
theorem C4_isRegistered_iff_present {V : Type} (m : FactoryMap V) (k : CStr) :
    IsRegistered m k = true ↔ ∃ e ∈ m.entries, e.1.bytes = k.bytes :=
  isRegistered_iff_mem m k

/-- Witness for C4, evaluated at the registry holding "Cat". -/
theorem C4_isRegistered_iff_present_witness :
    IsRegistered mCat keyCatAlias = true :=
  (C4_isRegistered_iff_present mCat keyCatAlias).mpr
    ⟨(keyCat, fCat), List.Mem.head _, rfl⟩

/-- C5: each trigger instantiation's static flag initializer is exactly the
Register call on the derived type's key accessor result and creation function,
and the static initialization phase performs exactly one insertion per triple
(the count grows by exactly the number of triggers and every trigger's key is
registered) before any deliberate use of the registry. -/
theorem C5_trigger_registers_once {A R : Type} (m : FactoryMap (A → R))
    (ts : List (Trigger A R))
    (hfresh : ∀ t ∈ ts, IsRegistered m t.GetFactoryKey = false)
    (hdist : ts.Pairwise
      (fun t t' => t.GetFactoryKey.bytes ≠ t'.GetFactoryKey.bytes)) :
    (∀ t, factoryInitFlag m t = Register m t.GetFactoryKey t.CreateInstance) ∧
    GetCount (staticInitPhase m ts) = GetCount m + ts.length ∧
    ∀ t ∈ ts, IsRegistered (staticInitPhase m ts) t.GetFactoryKey = true :=
  ⟨fun _ => rfl, staticInitPhase_count ts m hfresh hdist,
   staticInitPhase_registers ts m hfresh hdist⟩

/-- Witness for C5: the Cat and Dog triggers initialize into the empty
registry; the count becomes 2 and "Cat" is registered. -/
theorem C5_trigger_registers_once_witness :
    GetCount (staticInitPhase (@emptyFactory (Nat → Nat)) [trigCat, trigDog]) =
      GetCount (@emptyFactory (Nat → Nat)) + 2 ∧
    IsRegistered (staticInitPhase (@emptyFactory (Nat → Nat)) [trigCat, trigDog])
      keyCat = true := by
  have h := C5_trigger_registers_once (@emptyFactory (Nat → Nat))
    [trigCat, trigDog]
    (by
      intro t ht
      rcases List.mem_cons.mp ht with rfl | ht'
      · rfl
      · rcases List.mem_cons.mp ht' with rfl | ht''
        · rfl
        · cases ht'')
    (by
      refine List.Pairwise.cons ?_ (List.pairwise_singleton _ _)
      intro t' ht'
      rcases List.mem_singleton.mp ht' with rfl
      decide)
  exact ⟨h.2.1, h.2.2 trigCat (List.mem_cons_self trigCat [trigDog])⟩

/-- C6: GetNameByIndex at an index below GetCount returns a key that
IsRegistered confirms present; at an index at or above GetCount it returns the
null sentinel in the general-purpose build and hits the fatal assertion in the
ARDUINO build. -/
theorem C6_getNameByIndex_bounds {V : Type} (m : FactoryMap V) (i : Nat) :
    (i < GetCount m →
      ∃ k, GetNameByIndex m i = some k ∧ IsRegistered m k = true) ∧
    (GetCount m ≤ i →
      GetNameByIndex m i = none ∧
      GetNameByIndexArduino m i = AssertResult.assertFailed) := by
  constructor
  · intro h
    refine ⟨(m.entries.get ⟨i, h⟩).1, ?_, isRegistered_of_mem_entries m i h⟩
    unfold GetNameByIndex
    rw [if_neg (by omega)]
    rw [List.getElem?_eq_getElem h]
    rfl
  · intro h
    refine ⟨?_, ?_⟩
    · unfold GetNameByIndex
      rw [if_pos (by omega)]
    · unfold GetNameByIndexArduino
      rw [dif_neg (by omega)]

/-- Witness for C6, at the registry holding only "Cat": index 0 is in range
and yields a registered key; index 5 is out of range. -/
theorem C6_getNameByIndex_bounds_witness :
    (∃ k, GetNameByIndex mCat 0 = some k ∧ IsRegistered mCat k = true) ∧
    (GetNameByIndex mCat 5 = none ∧
      GetNameByIndexArduino mCat 5 = AssertResult.assertFailed) :=
  ⟨(C6_getNameByIndex_bounds mCat 0).1 (by decide),
   (C6_getNameByIndex_bounds mCat 5).2 (by decide)⟩

/-- C7: the source's Create is identical in every build mode and contains no
assert; at the concrete failing input (a registry holding only "Cat", probed
with the unregistered key "Fish") it returns the null result rather than
triggering the assertion the documentation describes. -/
theorem C7_create_missing_returns_null_in_code :
    Create mCat keyFish 5 = none ∧ IsRegistered mCat keyFish = false :=
  ⟨rfl, rfl⟩

/-- C8: under the default comparator, enumeration is strictly key-sorted: in
any registry state reached by a sequence of Register calls from the empty map,
keys at strictly increasing indices compare strictly increasing under strcmp. -/
theorem C8_enumeration_sorted {V : Type} (rs : List (CStr × V)) (i j : Nat)
    (hij : i < j) (hj : j < GetCount (applyRegistrations rs)) (ki kj : CStr)
    (hki : GetNameByIndex (applyRegistrations rs) i = some ki)
    (hkj : GetNameByIndex (applyRegistrations rs) j = some kj) :
    strcmp ki.bytes kj.bytes < 0 := by
  have hs := sorted_pairwise _ (applyRegistrations_sorted rs)
  have hj' : j < (applyRegistrations rs).entries.length := hj
  have hi : i < (applyRegistrations rs).entries.length := by omega
  have hpair := List.pairwise_iff_getElem.mp hs i j hi hj' hij
  unfold GetNameByIndex at hki hkj
  rw [if_neg (by omega), List.getElem?_eq_getElem hi] at hki
  rw [if_neg (by omega), List.getElem?_eq_getElem hj'] at hkj
  have hki' : ((applyRegistrations rs).entries[i]).1 = ki := by
    simpa using hki
  have hkj' : ((applyRegistrations rs).entries[j]).1 = kj := by
    simpa using hkj
  rw [← hki', ← hkj']
  exact hpair

/-- Witness for C8: registering "Dog" then "Cat" yields enumeration order
"Cat" before "Dog", with strcmp("Cat","Dog") < 0. -/
theorem C8_enumeration_sorted_witness :
    strcmp keyCat.bytes keyDog.bytes < 0 :=
  C8_enumeration_sorted [(keyDog, fDog), (keyCat, fCat)] 0 1 (by decide)
    (by decide) keyCat keyDog rfl rfl

/-- C9: Register never modifies any entry other than the one for its key: the
stored creation function, IsRegistered, and Create at any key whose string
contents differ are identical before and after, whether Register returned true
or false. -/
theorem C9_register_frame {A R : Type} (m : FactoryMap (A → R)) (k k' : CStr)
    (f : A → R) (a : A) (h : k'.bytes ≠ k.bytes) :
    mapFind (Register m k f).2 k' = mapFind m k' ∧
    IsRegistered (Register m k f).2 k' = IsRegistered m k' ∧
    Create (Register m k f).2 k' a = Create m k' a := by
  have hs : strcmp k.bytes k'.bytes ≠ 0 := fun h0 =>
    h ((strcmp_bytes_eq_zero_iff k k').mp h0).symm
  have hfind := register_frame m k f k' hs
  refine ⟨hfind, ?_, ?_⟩
  · unfold IsRegistered
    rw [hfind]
  · unfold Create
    rw [hfind]

/-- Witness for C9: registering "Dog" into the "Cat" registry leaves every
lookup at "Cat" unchanged. -/
theorem C9_register_frame_witness :
    mapFind (Register mCat keyDog fDog).2 keyCat = mapFind mCat keyCat ∧
    IsRegistered (Register mCat keyDog fDog).2 keyCat = IsRegistered mCat keyCat ∧
    Create (Register mCat keyDog fDog).2 keyCat 5 = Create mCat keyCat 5 :=
  C9_register_frame mCat keyDog keyCat fDog 5 (by decide)

/-- C10: key identity is decided by string contents, not pointer identity:
with a different pointer to an equal string, Register fails and changes
nothing, while IsRegistered and Create behave exactly as with the original
pointer (and Create succeeds). -/
theorem C10_contents_identity {A R : Type} (m : FactoryMap (A → R))
    (k k' : CStr) (g : A → R) (a : A) (hbytes : k'.bytes = k.bytes)
    (haddr : k'.addr ≠ k.addr) (hreg : IsRegistered m k = true) :
    (Register m k' g).1 = false ∧ (Register m k' g).2 = m ∧
    IsRegistered m k' = true ∧ Create m k' a = Create m k a ∧
    (Create m k a).isSome = true := by
  have hfind := mapFind_congr_bytes m hbytes
  cases hm : mapFind m k with
  | none =>
    unfold IsRegistered at hreg
    rw [hm] at hreg
    exact absurd hreg (by simp)
  | some f =>
    have hdup := register_dup_eq m k' g f (hfind.trans hm)
    refine ⟨by rw [hdup], by rw [hdup], ?_, ?_, ?_⟩
    · unfold IsRegistered
      rw [hfind, hm]
      rfl
    · unfold Create
      rw [hfind]
    · simp [Create, hm]

/-- Witness for C10: probing the "Cat" registry through a second pointer to an
equal "Cat" string. -/
theorem C10_contents_identity_witness :
    (Register mCat keyCatAlias fDog).1 = false ∧
    (Register mCat keyCatAlias fDog).2 = mCat ∧
    IsRegistered mCat keyCatAlias = true ∧
    Create mCat keyCatAlias 5 = Create mCat keyCat 5 ∧
    (Create mCat keyCat 5).isSome = true :=
  C10_contents_identity mCat keyCat keyCatAlias fDog 5 rfl (by decide) rfl

end AutoFactory
